import Mathlib

deriving instance DecidableEq for Except

/-!
Verification of the natural-language specification of PyScaffold's
command-line interface (`pyscaffold/cli.py`) against a shallow embedding
of that module.

The embedding models the pieces of the outside world the CLI touches:
environment variables (`os.getenv`, `os.path.expandvars`), path existence
and argument-file contents (`os.path.exists`, reading a file as lines),
and the behavior of the `argparse` parser that `parse_args` builds via
`add_default_args` (exact long/short option strings with separate value
tokens; abbreviated option prefixes and `--opt=value` forms are outside
the modelled subset).  `shlex.split(line, comments=True)` is embedded as
a character-level state machine following the POSIX lexing rules used by
`ArgumentParser.convert_arg_line_to_args`.  All functions are plain
structural recursion so that concrete runs evaluate by `decide`.
-/

namespace PyScaffold

/-- Environment variable lookup, `os.getenv`: `none` when the variable is
unset. -/
abbrev Env := String → Option String

/-- The filesystem facts the CLI consults: `os.path.exists`, and reading
an argument file as its list of lines (argparse reads referenced files
with `read().splitlines()`, so lines carry no newline characters). -/
structure FS where
  pathExists : String → Bool
  readLines : String → Option (List String)

/-- First character of a string, if any. -/
def strHead (s : String) : Option Char := s.data.head?

/-- Last character of a string, if any. -/
def strLast (s : String) : Option Char := s.data.getLast?

/-- Python `arg_string[1:]`. -/
def strTail (s : String) : String := String.mk (s.data.drop 1)

/-- Trailing-separator stripping on the character list:
`s.rstrip(os.sep)` with POSIX `os.sep = "/"`. -/
def stripTrailingSlashes (l : List Char) : List Char :=
  (l.reverse.dropWhile (fun c => c == '/')).reverse

/-- Line 238: `opts['project'].rstrip(os.sep)`. -/
def rstripSlashes (s : String) : String :=
  String.mk (stripTrailingSlashes s.data)

/-- POSIX `os.path.join(a, b)` for one extra component: an absolute `b`
wins; otherwise a separator is inserted unless `a` is empty or already
ends with one. -/
def joinPath (a b : String) : String :=
  if strHead b = some '/' then b
  else if a = "" ∨ strLast a = some '/' then a ++ b
  else a ++ "/" ++ b

/-- One config-path template `${VAR}suffix`, as in the source constants
`OSX_CONFIG = "${HOME}/Library/Application Support"`,
`WIN_CONFIG = "${APPDATA}"`, `XDG_CONFIG = "${XDG_CONFIG_HOME}"` and
`UNIX_CONFIG = "${HOME}/.config"`.  `os.path.expandvars` substitutes the
variable when it is set and leaves the `${VAR}` text in place when it is
not. -/
def expandTemplate (env : Env) (va : String) (suffix : String) : String :=
  match env va with
  | some v => v ++ suffix
  | none => "$\x7b" ++ va ++ "\x7d" ++ suffix

/-- The candidate list of `get_config_dir`, in source order. -/
def configCandidates (env : Env) : List String :=
  [expandTemplate env "HOME" "/Library/Application Support",
   expandTemplate env "APPDATA" "",
   expandTemplate env "XDG_CONFIG_HOME" "",
   expandTemplate env "HOME" "/.config"]

/-- POSIX `os.path.expanduser(os.path.join('~', '.pyscaffold'))`:
substitutes `$HOME` (with trailing slashes stripped) for the leading `~`;
when `HOME` is unset CPython would consult the pwd database, which is not
modelled, and the path stays unexpanded. -/
def expanduserDot (env : Env) : String :=
  match env "HOME" with
  | some h => rstripSlashes h ++ "/.pyscaffold"
  | none => "~/.pyscaffold"

/-- Function `get_config_dir` of `cli.py`: the first existing candidate,
with `pyscaffold` joined on, else the home-directory fallback. -/
def get_config_dir (env : Env) (fs : FS) : String :=
  match (configCandidates env).find? fs.pathExists with
  | some candidate => joinPath candidate "pyscaffold"
  | none => expanduserDot env

def DEFAULT_PROFILE : String := "default"

/-- Python `profile or DEFAULT_PROFILE`: `None` and the empty string are
both falsy and fall back to the default profile name. -/
def profileOrDefault (profile : Option String) : String :=
  match profile with
  | none => DEFAULT_PROFILE
  | some "" => DEFAULT_PROFILE
  | some p => p

/-- Function `get_args_file` of `cli.py`. -/
def get_args_file (env : Env) (fs : FS) (profile : Option String) : String :=
  joinPath (get_config_dir env fs) (profileOrDefault profile ++ ".args")

/-- Failure outcomes of argument processing: `shlex` lexing errors,
argparse errors (which exit the process), and exhaustion of the
file-nesting fuel of the model (the source has no recursion guard for
cyclic argument files). -/
inductive ParseError where
  | noClosingQuotation
  | noEscapedCharacter
  | fuelExhausted
  | cannotOpen (path : String)
  | expectedOneArg
  | invalidChoice (v : String)
  | unrecognized (t : String)
  | missingProject
  | mutuallyExclusive
  | versionExit
  deriving DecidableEq

/-- States of the POSIX `shlex` lexer in `whitespace_split` mode with
`#` comments, as exercised by `convert_arg_line_to_args`. -/
inductive LexState where
  | ws
  | word
  | sq
  | dq
  | escWord
  | escDq
  deriving DecidableEq

/-- The `shlex` whitespace set. -/
def isShlexWs (c : Char) : Bool :=
  c == ' ' || c == '\t' || c == '\r' || c == '\n'

/-- Token emission at a boundary: a token is produced when it is nonempty
or when any part of it was quoted (so `''` yields an empty token). -/
def emitTok (tok : List Char) (quoted : Bool) (acc : List String) : List String :=
  if tok.isEmpty && !quoted then acc else acc ++ [String.mk tok]

/-- The `shlex.split(line, comments=True)` state machine (POSIX rules,
`whitespace_split=True`): whitespace separates tokens, `'...'` quotes
verbatim, `"..."` quotes with `\"`/`\\` escapes, a backslash outside
quotes escapes the next character, and a `#` outside quotes discards the
rest of the line.  An unterminated quote or escape is an error. -/
def shlexRun : List Char → LexState → List Char → Bool → List String →
    Except ParseError (List String)
  | [], .ws, _, _, acc => .ok acc
  | [], .word, tok, quoted, acc => .ok (emitTok tok quoted acc)
  | [], .sq, _, _, _ => .error .noClosingQuotation
  | [], .dq, _, _, _ => .error .noClosingQuotation
  | [], .escWord, _, _, _ => .error .noEscapedCharacter
  | [], .escDq, _, _, _ => .error .noEscapedCharacter
  | c :: cs, .ws, tok, quoted, acc =>
    if isShlexWs c then shlexRun cs .ws [] false acc
    else if c == '#' then .ok acc
    else if c == '\\' then shlexRun cs .escWord tok quoted acc
    else if c == '\'' then shlexRun cs .sq tok true acc
    else if c == '"' then shlexRun cs .dq tok true acc
    else shlexRun cs .word (tok ++ [c]) quoted acc
  | c :: cs, .word, tok, quoted, acc =>
    if isShlexWs c then shlexRun cs .ws [] false (emitTok tok quoted acc)
    else if c == '#' then .ok (emitTok tok quoted acc)
    else if c == '\\' then shlexRun cs .escWord tok quoted acc
    else if c == '\'' then shlexRun cs .sq tok true acc
    else if c == '"' then shlexRun cs .dq tok true acc
    else shlexRun cs .word (tok ++ [c]) quoted acc
  | c :: cs, .sq, tok, quoted, acc =>
    if c == '\'' then shlexRun cs .word tok quoted acc
    else shlexRun cs .sq (tok ++ [c]) quoted acc
  | c :: cs, .dq, tok, quoted, acc =>
    if c == '"' then shlexRun cs .word tok quoted acc
    else if c == '\\' then shlexRun cs .escDq tok quoted acc
    else shlexRun cs .dq (tok ++ [c]) quoted acc
  | c :: cs, .escWord, tok, quoted, acc =>
    shlexRun cs .word (tok ++ [c]) quoted acc
  | c :: cs, .escDq, tok, quoted, acc =>
    if c == '\\' || c == '"' then shlexRun cs .dq (tok ++ [c]) quoted acc
    else shlexRun cs .dq (tok ++ ['\\', c]) quoted acc

/-- Method `ArgumentParser.convert_arg_line_to_args` of `cli.py`:
`shlex.split(arg_line, True)`. -/
def convert_arg_line_to_args (argLine : String) : Except ParseError (List String) :=
  shlexRun argLine.data .ws [] false []

/-- The argparse loop over a referenced file's lines: each line is
converted and the token lists are concatenated in order. -/
def argLines : List String → Except ParseError (List String)
  | [] => .ok []
  | l :: ls =>
    match convert_arg_line_to_args l with
    | .error e => .error e
    | .ok toks =>
      match argLines ls with
      | .error e => .error e
      | .ok rest => .ok (toks ++ rest)

/-- Does a token carry the `fromfile_prefix_chars` marker `@`? -/
def hasAtMark (a : String) : Bool :=
  match a.data with
  | '@' :: _ => true
  | _ => false

/-- One pass of argparse `_read_args_from_files` at a fixed nesting
depth: a `@file` token is replaced by the (already recursively expanded,
via `deeper`) tokens of the file; other tokens pass through. -/
def expandStep (fs : FS) (deeper : List String → Except ParseError (List String)) :
    List String → Except ParseError (List String)
  | [] => .ok []
  | a :: rest =>
    if hasAtMark a then
      match fs.readLines (strTail a) with
      | none => .error (.cannotOpen (strTail a))
      | some lines =>
        match argLines lines with
        | .error e => .error e
        | .ok fileToks =>
          match deeper fileToks with
          | .error e => .error e
          | .ok fileArgs =>
            match expandStep fs deeper rest with
            | .error e => .error e
            | .ok restArgs => .ok (fileArgs ++ restArgs)
    else
      match expandStep fs deeper rest with
      | .error e => .error e
      | .ok restArgs => .ok (a :: restArgs)

/-- Recursive depth-first `@file` expansion (argparse
`_read_args_from_files`).  The source recurses without a guard, so a
cyclic inclusion chain diverges; `fuel` bounds the nesting depth in the
model and is irrelevant whenever it exceeds the actual nesting. -/
def expandArgs (fs : FS) : Nat → List String → Except ParseError (List String)
  | 0, args => if args.any hasAtMark then .error .fuelExhausted else .ok args
  | f + 1, args => expandStep fs (expandArgs fs f) args

/-- Modelled from the spec: `templates.licenses` lives outside `src/`.
Section 4.1 requires the license code to come from a fixed known set;
the set here includes the codes appearing in the spec's examples and the
parser default `none`. -/
def licenses : List String :=
  ["apache", "gpl3", "mit", "mozilla", "new-bsd", "none"]

/-- The value bound to the `command` option: `run_scaffold` is the
parser-level default (`parser.set_defaults(..., command=run_scaffold)`)
and `--list-actions` stores `list_actions` instead. -/
inductive Cmd where
  | runScaffold
  | listActions
  deriving DecidableEq

/-- The argparse namespace produced by the parser that
`add_default_args` builds, with its effective defaults: `license` has
default `"none"`; the `store_true` flags default to `False`;
`log_level = "INFO"`, `extensions = []` and `command = run_scaffold`
come from `parser.set_defaults`; `-v` alias `--version` exits and stores
nothing. -/
structure Namespace where
  project : Option String := none
  package : Option String := none
  description : Option String := none
  url : Option String := none
  license : String := "none"
  force : Bool := false
  update : Bool := false
  pretend : Bool := false
  command : Cmd := Cmd.runScaffold
  log_level : String := "INFO"
  extensions : List String := []
  deriving DecidableEq

/-- Which action of the mutually exclusive group has already been seen
(argparse errors when a second, different group action occurs). -/
inductive GroupFlag where
  | pretendFlag
  | listActionsFlag
  deriving DecidableEq

/-- The four single-valued options of `add_default_args` that take a
value token. -/
inductive ValOpt where
  | pkg
  | desc
  | url
  | lic
  deriving DecidableEq

/-- The option strings registered for each single-valued option. -/
def valOptStrings (o : ValOpt) : List String :=
  match o with
  | .pkg => ["-p", "--package"]
  | .desc => ["-d", "--description"]
  | .url => ["-u", "--url"]
  | .lic => ["-l", "--license"]

/-- The `dest` (dictionary key) of each single-valued option. -/
def valOptDest (o : ValOpt) : String :=
  match o with
  | .pkg => "package"
  | .desc => "description"
  | .url => "url"
  | .lic => "license"

/-- Recognize a single-valued option string. -/
def valOptOf (t : String) : Option ValOpt :=
  if t = "-p" ∨ t = "--package" then some .pkg
  else if t = "-d" ∨ t = "--description" then some .desc
  else if t = "-u" ∨ t = "--url" then some .url
  else if t = "-l" ∨ t = "--license" then some .lic
  else none

/-- Store a single-valued option's value; `--license` checks its value
against the fixed `choices` set and fails otherwise. -/
def valOptSet (o : ValOpt) (v : String) (ns : Namespace) : Except ParseError Namespace :=
  match o with
  | .pkg => .ok { ns with package := some v }
  | .desc => .ok { ns with description := some v }
  | .url => .ok { ns with url := some v }
  | .lic =>
    if licenses.contains v then .ok { ns with license := v }
    else .error (.invalidChoice v)

/-- The argparse `_negative_number_matcher` in the integer form `-ddd`
(this parser registers no numeric-looking options, so such a token is a
positional). -/
def isNegNumber (t : String) : Bool :=
  match t.data with
  | '-' :: rest => !rest.isEmpty && rest.all Char.isDigit
  | _ => false

/-- The argparse `_parse_optional` classification: a token counts as an
option when it starts with `-`, is longer than one character, does not
look like a negative number, and contains no space. -/
def isOptionToken (t : String) : Bool :=
  match t.data with
  | '-' :: rest =>
    !rest.isEmpty && !isNegNumber t && !t.data.any (fun c => c == ' ')
  | _ => false

/-- Parsing state: the namespace so far, which mutually exclusive group
action has been seen, and a single-valued option still awaiting its
value token. -/
structure PState where
  ns : Namespace
  seen : Option GroupFlag
  pending : Option ValOpt
  deriving DecidableEq

def initState : PState := { ns := {}, seen := none, pending := none }

/-- Consume one token: a pending single-valued option grabs the token as
its value (argparse rejects an option-like token there with "expected
one argument"); otherwise the token is dispatched to the option it
names, the mutually exclusive group is enforced for
`--pretend`/`--dry-run` vs `--list-actions`, `-v` alias `--version` exits,
an unknown option-like token is an error, and the single positional
`PROJECT` takes the first non-option token (a second one is an
"unrecognized arguments" error). -/
def step (t : String) (st : PState) : Except ParseError PState :=
  match st.pending with
  | some o =>
    if isOptionToken t then .error .expectedOneArg
    else
      match valOptSet o t st.ns with
      | .error e => .error e
      | .ok ns => .ok { st with ns := ns, pending := none }
  | none =>
    match valOptOf t with
    | some o => .ok { st with pending := some o }
    | none =>
      if t = "-f" ∨ t = "--force" then
        .ok { st with ns := { st.ns with force := true } }
      else if t = "-U" ∨ t = "--update" then
        .ok { st with ns := { st.ns with update := true } }
      else if t = "--pretend" ∨ t = "--dry-run" then
        if st.seen = some GroupFlag.listActionsFlag then .error .mutuallyExclusive
        else .ok { st with ns := { st.ns with pretend := true },
                           seen := some GroupFlag.pretendFlag }
      else if t = "--list-actions" then
        if st.seen = some GroupFlag.pretendFlag then .error .mutuallyExclusive
        else .ok { st with ns := { st.ns with command := Cmd.listActions },
                           seen := some GroupFlag.listActionsFlag }
      else if t = "-v" ∨ t = "--version" then .error .versionExit
      else if t = "-q" ∨ t = "--quiet" then
        .ok { st with ns := { st.ns with log_level := "CRITICAL" } }
      else if isOptionToken t then .error (.unrecognized t)
      else
        match st.ns.project with
        | none => .ok { st with ns := { st.ns with project := some t } }
        | some _ => .error (.unrecognized t)

/-- Run the parser over the fully expanded token list; at the end a
dangling single-valued option and a missing required `PROJECT`
positional are errors. -/
def runTokens : List String → PState → Except ParseError Namespace
  | [], st =>
    match st.pending with
    | some _ => .error .expectedOneArg
    | none => if st.ns.project.isSome then .ok st.ns else .error .missingProject
  | t :: ts, st =>
    match step t st with
    | .error e => .error e
    | .ok st' => runTokens ts st'

/-- Values appearing in the options dictionary `parse_args` returns. -/
inductive Value where
  | str (s : String)
  | bool (b : Bool)
  | num (n : Nat)
  | cmd (c : Cmd)
  | strList (l : List String)
  deriving DecidableEq

/-- Line 241, `getattr(logging, opts['log_level'])` for the two level
names this CLI produces: `logging.INFO = 20`, `logging.CRITICAL = 50`. -/
def levelNumber (s : String) : Nat :=
  if s = "CRITICAL" then 50 else 20

/-- The attribute/value pairs of `vars(namespace)` after the
post-processing of lines 237-241 (`project` stripped of trailing
separators, the log level made numeric); `none` marks an attribute bound
to Python `None`. -/
def namespacePairs (ns : Namespace) : List (String × Option Value) :=
  [("project", (ns.project.map rstripSlashes).map Value.str),
   ("package", ns.package.map Value.str),
   ("description", ns.description.map Value.str),
   ("url", ns.url.map Value.str),
   ("license", some (Value.str ns.license)),
   ("force", some (Value.bool ns.force)),
   ("update", some (Value.bool ns.update)),
   ("pretend", some (Value.bool ns.pretend)),
   ("command", some (Value.cmd ns.command)),
   ("log_level", some (Value.num (levelNumber ns.log_level))),
   ("extensions", some (Value.strList ns.extensions))]

/-- Line 244: `{k: v for k, v in opts.items() if v is not None}`. -/
def pruneNone (l : List (String × Option Value)) : List (String × Value) :=
  l.filterMap fun p => p.2.map fun v => (p.1, v)

/-- The dictionary `parse_args` returns for a given parsed namespace. -/
def finalizeOpts (ns : Namespace) : List (String × Value) :=
  pruneNone (namespacePairs ns)

/-- Dictionary lookup in the returned options record. -/
def lookupOpt (k : String) (d : List (String × Value)) : Option Value :=
  (d.find? fun p => p.1 == k).map Prod.snd

/-- Namespace-level core of `parse_args`: `@file` expansion followed by
option parsing of the resulting token list. -/
def parseNamespace (fs : FS) (fuel : Nat) (args : List String) :
    Except ParseError Namespace :=
  match expandArgs fs fuel args with
  | .error e => .error e
  | .ok toks => runTokens toks initState

/-- Dictionary-level parse of a token list with no profile-file
consultation at all: expansion, parsing, and the post-processing of
lines 237-244. -/
def parseExplicit (fs : FS) (fuel : Nat) (args : List String) :
    Except ParseError (List (String × Value)) :=
  match parseNamespace fs fuel args with
  | .error e => .error e
  | .ok ns => .ok (finalizeOpts ns)

/-- Lines 227-231 of `parse_args`: unless `PYSCAFFOLD_PROFILE` is the
literal `none`, a present profile arguments file is prepended, as a
single `@file` reference, in front of the explicit arguments. -/
def effectiveArgs (env : Env) (fs : FS) (args : List String) : List String :=
  if env "PYSCAFFOLD_PROFILE" ≠ some "none" then
    if fs.pathExists (get_args_file env fs (env "PYSCAFFOLD_PROFILE")) then
      ("@" ++ get_args_file env fs (env "PYSCAFFOLD_PROFILE")) :: args
    else args
  else args

/-- Function `parse_args` of `cli.py` up to the parsed namespace. -/
def parse_argsNS (env : Env) (fs : FS) (fuel : Nat) (args : List String) :
    Except ParseError Namespace :=
  parseNamespace fs fuel (effectiveArgs env fs args)

/-- Function `parse_args` of `cli.py`: profile prepending, `@file`
expansion, option parsing, and the dictionary post-processing of lines
237-244. -/
def parse_args (env : Env) (fs : FS) (fuel : Nat) (args : List String) :
    Except ParseError (List (String × Value)) :=
  parseExplicit fs fuel (effectiveArgs env fs args)

/-- Observable side effects a CLI command can perform. -/
inductive Effect where
  | print (s : String)
  | createPath (p : String)
  | runProcess (c : String)
  deriving DecidableEq

/-- A resolved action of the pipeline, known here by its identifier. -/
structure Action where
  id : String
  deriving DecidableEq

/-- Modelled from the spec: `api.helpers.get_id` is outside `src/`;
sections 4.2 and 4.6 identify every resolved action by its identifier. -/
def get_id (a : Action) : String := a.id

/-- Modelled from the spec: `ReportFormatter.SPACING` (the `log` module
is outside `src/`), the indentation used when listing actions. -/
def SPACING : String := "  "

/-- Python `opts.get('extensions', [])`. -/
def optsExtensions (opts : List (String × Value)) : List String :=
  match lookupOpt "extensions" opts with
  | some (Value.strList l) => l
  | _ => []

/-- Function `list_actions` of `cli.py` as a trace of observable
effects.  `discover` stands for `api.discover_actions`, which is outside
`src/` and is modelled from the spec (section 4.2) as the pure hook
resolution that yields the final ordered action plan. -/
def list_actions (discover : List String → List Action)
    (opts : List (String × Value)) : List Effect :=
  Effect.print "Planned Actions:\n" ::
    (discover (optsExtensions opts)).map fun a => Effect.print (SPACING ++ get_id a)

/-- The algorithm of claim C4, written from the claim's words: try, in
order, the platform application-support path and the per-user
config-home paths (`$APPDATA`, `$XDG_CONFIG_HOME`, `$HOME/.config`);
return the first that exists with `pyscaffold` appended; with no
existing candidate, fall back to the dot-directory `~/.pyscaffold` under
the home directory. -/
def claimConfigDir (env : Env) (fs : FS) : String :=
  if fs.pathExists (expandTemplate env "HOME" "/Library/Application Support") then
    joinPath (expandTemplate env "HOME" "/Library/Application Support") "pyscaffold"
  else if fs.pathExists (expandTemplate env "APPDATA" "") then
    joinPath (expandTemplate env "APPDATA" "") "pyscaffold"
  else if fs.pathExists (expandTemplate env "XDG_CONFIG_HOME" "") then
    joinPath (expandTemplate env "XDG_CONFIG_HOME" "") "pyscaffold"
  else if fs.pathExists (expandTemplate env "HOME" "/.config") then
    joinPath (expandTemplate env "HOME" "/.config") "pyscaffold"
  else expanduserDot env

/-- Whether an argument-processing run failed. -/
def isErr {α : Type} (e : Except ParseError α) : Bool :=
  match e with
  | .error _ => true
  | .ok _ => false

/-- The namespace records value `v` for single-valued option `o`. -/
def valOptHolds (o : ValOpt) (v : String) (ns : Namespace) : Prop :=
  match o with
  | .pkg => ns.package = some v
  | .desc => ns.description = some v
  | .url => ns.url = some v
  | .lic => ns.license = v

/-- Parsing invariant tying the effects of the mutually exclusive group
to the record of which group action has been seen. -/
def groupInv (st : PState) : Prop :=
  (st.ns.pretend = true → st.seen = some GroupFlag.pretendFlag) ∧
  (st.ns.command = Cmd.listActions → st.seen = some GroupFlag.listActionsFlag)

/-- A world where `PYSCAFFOLD_PROFILE` is the literal `none` and nothing
exists on disk. -/
def env0 : Env := fun k => if k = "PYSCAFFOLD_PROFILE" then some "none" else none

def fs0 : FS := { pathExists := fun _ => false, readLines := fun _ => none }

/-- A world with `HOME` set and the profile variable unset. -/
def env1 : Env := fun k => if k = "HOME" then some "/home/u" else none

/-- A filesystem with `$HOME/.config` and a `default.args` profile file
holding one line of arguments. -/
def fs1 : FS :=
  { pathExists := fun p =>
      decide (p = "/home/u/.config") ||
        decide (p = "/home/u/.config/pyscaffold/default.args")
  , readLines := fun p =>
      if p = "/home/u/.config/pyscaffold/default.args" then
        some ["--license mozilla"]
      else none }

/-- A world where the profile variable is the literal `none` while both
`default.args` and `none.args` exist. -/
def env2 : Env := fun k =>
  if k = "PYSCAFFOLD_PROFILE" then some "none"
  else if k = "HOME" then some "/home/u" else none

def fs2 : FS :=
  { pathExists := fun p =>
      decide (p = "/home/u/.config") ||
        decide (p = "/home/u/.config/pyscaffold/default.args") ||
        decide (p = "/home/u/.config/pyscaffold/none.args")
  , readLines := fun p =>
      if p = "/home/u/.config/pyscaffold/default.args" ∨
          p = "/home/u/.config/pyscaffold/none.args" then
        some ["--force"]
      else none }

/-- A sample resolved plan for exercising `list_actions`. -/
def discover0 : List String → List Action := fun _ =>
  [{ id := "pyscaffold.api:get_default_options" },
   { id := "pyscaffold.structure:define_structure" }]

/-! Helper lemmas. -/

theorem head?_dropWhile_false {α : Type} (p : α → Bool) (l : List α) (c : α)
    (h : (l.dropWhile p).head? = some c) : p c = false := by
  induction l with
  | nil => simp [List.dropWhile] at h
  | cons a l ih =>
    rw [List.dropWhile_cons] at h
    by_cases hp : p a
    · simp [hp] at h
      exact ih h
    · simp [hp] at h
      simp at hp
      rw [← h]
      exact hp

theorem stripTrailingSlashes_getLast (l : List Char) (c : Char)
    (h : (stripTrailingSlashes l).getLast? = some c) : c ≠ '/' := by
  unfold stripTrailingSlashes at h
  rw [List.getLast?_reverse] at h
  have := head?_dropWhile_false (fun c => c == '/') l.reverse c h
  simpa using this

theorem stripTrailingSlashes_decomp (l : List Char) :
    ∃ k : Nat, l = stripTrailingSlashes l ++ List.replicate k '/' := by
  refine ⟨(l.reverse.takeWhile (fun c => c == '/')).length, ?_⟩
  have hsplit :
      l.reverse.takeWhile (fun c => c == '/') ++
        l.reverse.dropWhile (fun c => c == '/') = l.reverse :=
    List.takeWhile_append_dropWhile _ _
  have htake : l.reverse.takeWhile (fun c => c == '/') =
      List.replicate (l.reverse.takeWhile (fun c => c == '/')).length '/' := by
    apply List.eq_replicate_of_mem
    intro b hb
    have := List.mem_takeWhile_imp hb
    simpa using this
  calc l = l.reverse.reverse := by rw [List.reverse_reverse]
    _ = (l.reverse.takeWhile (fun c => c == '/') ++
          l.reverse.dropWhile (fun c => c == '/')).reverse := by rw [hsplit]
    _ = stripTrailingSlashes l ++ (l.reverse.takeWhile (fun c => c == '/')).reverse := by
          rw [List.reverse_append]; rfl
    _ = stripTrailingSlashes l ++
          List.replicate (l.reverse.takeWhile (fun c => c == '/')).length '/' := by
          rw [← List.reverse_replicate, ← htake]

theorem stripTrailingSlashes_of_getLast_ne (l : List Char)
    (h : l.getLast? ≠ some '/') : stripTrailingSlashes l = l := by
  unfold stripTrailingSlashes
  cases hr : l.reverse with
  | nil =>
    have : l = [] := by simpa using congrArg List.reverse hr
    simp [this]
  | cons c t =>
    have hc : c ≠ '/' := by
      intro hcontra
      apply h
      rw [← List.head?_reverse, hr, hcontra]
      rfl
    rw [List.dropWhile_cons]
    simp only [hc, beq_iff_eq, if_false]
    rw [← hr, List.reverse_reverse]

theorem rstripSlashes_getLast (s : String) (c : Char)
    (h : strLast (rstripSlashes s) = some c) : c ≠ '/' :=
  stripTrailingSlashes_getLast s.data c h

theorem rstripSlashes_of_no_trailing (s : String)
    (h : strLast s ≠ some '/') : rstripSlashes s = s := by
  unfold rstripSlashes
  rw [stripTrailingSlashes_of_getLast_ne s.data h]

theorem rstripSlashes_decomp (s : String) :
    ∃ k : Nat, s = rstripSlashes s ++ String.mk (List.replicate k '/') := by
  cases s with
  | mk l =>
    obtain ⟨k, hk⟩ := stripTrailingSlashes_decomp l
    refine ⟨k, ?_⟩
    have hmk : rstripSlashes (String.mk l) ++ String.mk (List.replicate k '/') =
        String.mk (stripTrailingSlashes l ++ List.replicate k '/') := rfl
    rw [hmk]
    exact congrArg String.mk hk

/-! Lookups in the finalized dictionary. -/

theorem lookupOpt_finalize_project (ns : Namespace) (s : String)
    (hs : ns.project = some s) :
    lookupOpt "project" (finalizeOpts ns) = some (Value.str (rstripSlashes s)) := by
  simp [finalizeOpts, namespacePairs, pruneNone, lookupOpt, hs]

theorem lookupOpt_finalize_package (ns : Namespace) :
    lookupOpt "package" (finalizeOpts ns) = ns.package.map Value.str := by
  cases hp : ns.project <;> cases hk : ns.package <;> cases hd : ns.description <;>
    cases hu : ns.url <;>
      simp [finalizeOpts, namespacePairs, pruneNone, lookupOpt, hp, hk, hd, hu]

theorem lookupOpt_finalize_description (ns : Namespace) :
    lookupOpt "description" (finalizeOpts ns) = ns.description.map Value.str := by
  cases hp : ns.project <;> cases hk : ns.package <;> cases hd : ns.description <;>
    cases hu : ns.url <;>
      simp [finalizeOpts, namespacePairs, pruneNone, lookupOpt, hp, hk, hd, hu]

theorem lookupOpt_finalize_url (ns : Namespace) :
    lookupOpt "url" (finalizeOpts ns) = ns.url.map Value.str := by
  cases hp : ns.project <;> cases hk : ns.package <;> cases hd : ns.description <;>
    cases hu : ns.url <;>
      simp [finalizeOpts, namespacePairs, pruneNone, lookupOpt, hp, hk, hd, hu]

theorem lookupOpt_finalize_license (ns : Namespace) :
    lookupOpt "license" (finalizeOpts ns) = some (Value.str ns.license) := by
  cases hp : ns.project <;> cases hk : ns.package <;> cases hd : ns.description <;>
    cases hu : ns.url <;>
      simp [finalizeOpts, namespacePairs, pruneNone, lookupOpt, hp, hk, hd, hu]

theorem lookupOpt_finalize_force (ns : Namespace) :
    lookupOpt "force" (finalizeOpts ns) = some (Value.bool ns.force) := by
  cases hp : ns.project <;> cases hk : ns.package <;> cases hd : ns.description <;>
    cases hu : ns.url <;>
      simp [finalizeOpts, namespacePairs, pruneNone, lookupOpt, hp, hk, hd, hu]

theorem lookupOpt_finalize_pretend (ns : Namespace) :
    lookupOpt "pretend" (finalizeOpts ns) = some (Value.bool ns.pretend) := by
  cases hp : ns.project <;> cases hk : ns.package <;> cases hd : ns.description <;>
    cases hu : ns.url <;>
      simp [finalizeOpts, namespacePairs, pruneNone, lookupOpt, hp, hk, hd, hu]

theorem lookupOpt_finalize_command (ns : Namespace) :
    lookupOpt "command" (finalizeOpts ns) = some (Value.cmd ns.command) := by
  cases hp : ns.project <;> cases hk : ns.package <;> cases hd : ns.description <;>
    cases hu : ns.url <;>
      simp [finalizeOpts, namespacePairs, pruneNone, lookupOpt, hp, hk, hd, hu]

theorem lookupOpt_finalize_log_level (ns : Namespace) :
    lookupOpt "log_level" (finalizeOpts ns) =
      some (Value.num (levelNumber ns.log_level)) := by
  cases hp : ns.project <;> cases hk : ns.package <;> cases hd : ns.description <;>
    cases hu : ns.url <;>
      simp [finalizeOpts, namespacePairs, pruneNone, lookupOpt, hp, hk, hd, hu]

/-! Basic facts about the token-level parser. -/

theorem runTokens_project_isSome (ts : List String) :
    ∀ st ns, runTokens ts st = .ok ns → ns.project.isSome = true := by
  induction ts with
  | nil =>
    intro st ns h
    unfold runTokens at h
    cases hp : st.pending with
    | some o => rw [hp] at h; simp at h
    | none =>
      rw [hp] at h
      by_cases hq : st.ns.project.isSome
      · simp [hq] at h
        rw [← h]
        exact hq
      · simp [hq] at h
  | cons t ts ih =>
    intro st ns h
    unfold runTokens at h
    cases hs : step t st with
    | error e => rw [hs] at h; simp at h
    | ok st' => rw [hs] at h; exact ih st' ns h

/-! Claim theorems. -/

/-- C4: `get_config_dir` returns, with `pyscaffold` appended, the first
existing path among the fixed candidates tried in order — the platform
application-support path, then the per-user config-home paths
(`$APPDATA`, `$XDG_CONFIG_HOME`, `$HOME/.config`) — and falls back to
the dot-directory `~/.pyscaffold` under the home directory when no
candidate exists. -/
theorem get_config_dir_follows_candidate_order (env : Env) (fs : FS) :
    get_config_dir env fs = claimConfigDir env fs := by
  unfold get_config_dir claimConfigDir configCandidates
  cases h1 : fs.pathExists (expandTemplate env "HOME" "/Library/Application Support") <;>
    cases h2 : fs.pathExists (expandTemplate env "APPDATA" "") <;>
      cases h3 : fs.pathExists (expandTemplate env "XDG_CONFIG_HOME" "") <;>
        cases h4 : fs.pathExists (expandTemplate env "HOME" "/.config") <;>
          simp [List.find?, h1, h2, h3, h4]

/-- C2: when the profile environment variable equals the literal `none`,
`parse_args` loads no profile file at all: the result equals that of
parsing the explicit arguments alone, whatever profile files (including
`none.args` and `default.args`) exist in the configuration directory. -/
theorem parse_args_profile_none_ignores_files (env : Env) (fs : FS)
    (fuel : Nat) (args : List String)
    (hprof : env "PYSCAFFOLD_PROFILE" = some "none") :
    parse_args env fs fuel args = parseExplicit fs fuel args := by
  unfold parse_args effectiveArgs
  simp [hprof]

theorem parse_args_profile_none_ignores_files_witness :
    parse_args env2 fs2 4 ["p"] = parseExplicit fs2 4 ["p"] :=
  parse_args_profile_none_ignores_files env2 fs2 4 ["p"] (by decide)

/-- C10: when the selected profile's arguments file does not exist,
`parse_args` silently proceeds with the explicit command-line arguments
alone; the missing file is never reported as an error. -/
theorem parse_args_missing_profile_file_silent (env : Env) (fs : FS)
    (fuel : Nat) (args : List String)
    (hprof : env "PYSCAFFOLD_PROFILE" ≠ some "none")
    (hfile : fs.pathExists (get_args_file env fs (env "PYSCAFFOLD_PROFILE")) = false) :
    parse_args env fs fuel args = parseExplicit fs fuel args := by
  unfold parse_args effectiveArgs
  simp [hprof, hfile]

theorem parse_args_missing_profile_file_silent_witness :
    parse_args env1 fs0 4 ["p"] = parseExplicit fs0 4 ["p"] :=
  parse_args_missing_profile_file_silent env1 fs0 4 ["p"] (by decide) (by decide)

/-- C5 counterexample: the explicit argument list `["///"]` is accepted
by `parse_args` (with no profile file in play) and the returned record
binds `project` to the empty string, so the project value is not always
non-empty. -/
theorem parse_args_empty_project_cex :
    parse_args env0 fs0 4 ["///"] =
      .ok [("project", Value.str ""), ("license", Value.str "none"),
           ("force", Value.bool false), ("update", Value.bool false),
           ("pretend", Value.bool false), ("command", Value.cmd Cmd.runScaffold),
           ("log_level", Value.num 20), ("extensions", Value.strList [])]
    ∧ lookupOpt "project"
        [("project", Value.str ""), ("license", Value.str "none"),
         ("force", Value.bool false), ("update", Value.bool false),
         ("pretend", Value.bool false), ("command", Value.cmd Cmd.runScaffold),
         ("log_level", Value.num 20), ("extensions", Value.strList [])] =
      some (Value.str "") := by
  exact ⟨by decide, by decide⟩

/-- C5 (amended): every record returned by `parse_args` binds `project`
to a string value with no trailing path separator; that string can be
empty when the supplied project name consists only of separators. -/
theorem parse_args_project_no_trailing_sep (env : Env) (fs : FS)
    (fuel : Nat) (args : List String) (d : List (String × Value))
    (h : parse_args env fs fuel args = .ok d) :
    ∃ p : String, lookupOpt "project" d = some (Value.str p) ∧
      strLast p ≠ some '/' := by
  unfold parse_args parseExplicit parseNamespace at h
  cases he : expandArgs fs fuel (effectiveArgs env fs args) with
  | error e => rw [he] at h; simp at h
  | ok toks =>
    rw [he] at h
    dsimp only at h
    cases hr : runTokens toks initState with
    | error e => rw [hr] at h; simp at h
    | ok ns =>
      rw [hr] at h
      simp at h
      have hsome := runTokens_project_isSome toks initState ns hr
      cases hs : ns.project with
      | none => rw [hs] at hsome; simp at hsome
      | some s =>
        refine ⟨rstripSlashes s, ?_, ?_⟩
        · rw [← h]
          exact lookupOpt_finalize_project ns s hs
        · intro hlast
          exact rstripSlashes_getLast s '/' hlast rfl

theorem parse_args_project_no_trailing_sep_witness :
    ∃ p : String,
      lookupOpt "project"
        [("project", Value.str "hello"), ("license", Value.str "none"),
         ("force", Value.bool false), ("update", Value.bool false),
         ("pretend", Value.bool false), ("command", Value.cmd Cmd.runScaffold),
         ("log_level", Value.num 20), ("extensions", Value.strList [])] =
        some (Value.str p) ∧ strLast p ≠ some '/' :=
  parse_args_project_no_trailing_sep env0 fs0 4 ["hello//"] _ (by decide)

/-- C3 helper: inside a single-quoted section every character other than
the closing quote is appended verbatim to the current token. -/
theorem shlexRun_sq_no_quote (cs : List Char) :
    ∀ rest tok quoted acc, (∀ c ∈ cs, c ≠ '\'') →
      shlexRun (cs ++ '\'' :: rest) .sq tok quoted acc =
        shlexRun rest .word (tok ++ cs) quoted acc := by
  induction cs with
  | nil =>
    intro rest tok quoted acc _
    simp [shlexRun]
  | cons c cs ih =>
    intro rest tok quoted acc h
    have hc : c ≠ '\'' := h c (List.mem_cons_self c cs)
    have hbeq : (c == '\'') = false := by simpa using hc
    have hstep : shlexRun ((c :: cs) ++ '\'' :: rest) LexState.sq tok quoted acc =
        shlexRun (cs ++ '\'' :: rest) LexState.sq (tok ++ [c]) quoted acc := by
      simp [shlexRun, hbeq]
    rw [hstep,
      ih rest (tok ++ [c]) quoted acc fun c' hc' => h c' (List.mem_cons_of_mem c hc')]
    simp

/-- C3: each argument-file line is tokenized with shell-like quoting
rules and `#`-to-end-of-line comments: the file lines
`--license mozilla` and `--with-tox # comment` expand to exactly
`["--license", "mozilla", "--with-tox"]`, and a single-quoted substring
(any characters other than the quote itself, including spaces and `#`)
is kept as a single token. -/
theorem convert_arg_line_quoting_and_comments :
    convert_arg_line_to_args "--license mozilla" = .ok ["--license", "mozilla"]
    ∧ convert_arg_line_to_args "--with-tox # comment" = .ok ["--with-tox"]
    ∧ argLines ["--license mozilla", "--with-tox # comment"] =
        .ok ["--license", "mozilla", "--with-tox"]
    ∧ ∀ cs : List Char, (∀ c ∈ cs, c ≠ '\'') →
        shlexRun ('\'' :: (cs ++ ['\''])) .ws [] false [] = .ok [String.mk cs] := by
  refine ⟨by decide, by decide, by decide, ?_⟩
  intro cs h
  have h1 : shlexRun ('\'' :: (cs ++ ['\''])) .ws [] false [] =
      shlexRun (cs ++ '\'' :: []) .sq [] true [] := by
    simp [shlexRun, isShlexWs]
  rw [h1, shlexRun_sq_no_quote cs [] [] true [] h]
  simp [shlexRun, emitTok]

theorem convert_arg_line_quoting_and_comments_witness :
    shlexRun ('\'' :: (['a', ' ', 'b', '#'] ++ ['\''])) .ws [] false [] =
      .ok [String.mk ['a', ' ', 'b', '#']] :=
  convert_arg_line_quoting_and_comments.2.2.2 ['a', ' ', 'b', '#'] (by decide)

/-- C6: when the parsed positional project name is `s`, the returned
record binds `project` to `s` with its trailing path separators
stripped — `s` decomposes as that value followed by a run of
separators — and a name with no trailing separator is returned
unchanged. -/
theorem parse_args_strips_trailing_separators (env : Env) (fs : FS)
    (fuel : Nat) (args : List String) (ns : Namespace) (s : String)
    (h : parse_argsNS env fs fuel args = .ok ns)
    (hs : ns.project = some s) :
    parse_args env fs fuel args = .ok (finalizeOpts ns)
    ∧ lookupOpt "project" (finalizeOpts ns) = some (Value.str (rstripSlashes s))
    ∧ (∃ k : Nat, s = rstripSlashes s ++ String.mk (List.replicate k '/'))
    ∧ (strLast s ≠ some '/' → rstripSlashes s = s) := by
  refine ⟨?_, lookupOpt_finalize_project ns s hs, rstripSlashes_decomp s,
    rstripSlashes_of_no_trailing s⟩
  unfold parse_args parseExplicit parseNamespace
  unfold parse_argsNS parseNamespace at h
  cases he : expandArgs fs fuel (effectiveArgs env fs args) with
  | error e => rw [he] at h; simp at h
  | ok toks =>
    rw [he] at h
    dsimp only at h
    dsimp only
    rw [h]

theorem parse_args_strips_trailing_separators_witness :
    parse_args env0 fs0 4 ["hello//"] =
      .ok (finalizeOpts { project := some "hello//" })
    ∧ lookupOpt "project" (finalizeOpts { project := some "hello//" }) =
        some (Value.str (rstripSlashes "hello//"))
    ∧ (∃ k : Nat,
        "hello//" = rstripSlashes "hello//" ++ String.mk (List.replicate k '/'))
    ∧ (strLast "hello//" ≠ some '/' → rstripSlashes "hello//" = "hello//") :=
  parse_args_strips_trailing_separators env0 fs0 4 ["hello//"]
    { project := some "hello//" } "hello//" (by decide) (by decide)

/-- C7: the record `parse_args` returns is the namespace dictionary with
every `None`-valued entry pruned: the defaultless options `package`,
`description` and `url` appear exactly when a value was assigned
(absence, not a false or empty value, marks "use the component
default"), while defaulted keys such as `license`, `force` and
`log_level` are always present with their non-`None` values. -/
theorem parse_args_prunes_absent_values (env : Env) (fs : FS)
    (fuel : Nat) (args : List String) (ns : Namespace)
    (h : parse_argsNS env fs fuel args = .ok ns) :
    parse_args env fs fuel args = .ok (finalizeOpts ns)
    ∧ lookupOpt "package" (finalizeOpts ns) = ns.package.map Value.str
    ∧ lookupOpt "description" (finalizeOpts ns) = ns.description.map Value.str
    ∧ lookupOpt "url" (finalizeOpts ns) = ns.url.map Value.str
    ∧ lookupOpt "license" (finalizeOpts ns) = some (Value.str ns.license)
    ∧ lookupOpt "force" (finalizeOpts ns) = some (Value.bool ns.force)
    ∧ lookupOpt "log_level" (finalizeOpts ns) =
        some (Value.num (levelNumber ns.log_level)) := by
  refine ⟨?_, lookupOpt_finalize_package ns, lookupOpt_finalize_description ns,
    lookupOpt_finalize_url ns, lookupOpt_finalize_license ns,
    lookupOpt_finalize_force ns, lookupOpt_finalize_log_level ns⟩
  unfold parse_args parseExplicit parseNamespace
  unfold parse_argsNS parseNamespace at h
  cases he : expandArgs fs fuel (effectiveArgs env fs args) with
  | error e => rw [he] at h; simp at h
  | ok toks =>
    rw [he] at h
    dsimp only at h
    dsimp only
    rw [h]

theorem parse_args_prunes_absent_values_witness :
    parse_args env0 fs0 4 ["proj"] = .ok (finalizeOpts { project := some "proj" })
    ∧ lookupOpt "package" (finalizeOpts { project := some "proj" }) =
        (({ project := some "proj" } : Namespace)).package.map Value.str
    ∧ lookupOpt "description" (finalizeOpts { project := some "proj" }) =
        (({ project := some "proj" } : Namespace)).description.map Value.str
    ∧ lookupOpt "url" (finalizeOpts { project := some "proj" }) =
        (({ project := some "proj" } : Namespace)).url.map Value.str
    ∧ lookupOpt "license" (finalizeOpts { project := some "proj" }) =
        some (Value.str (({ project := some "proj" } : Namespace)).license)
    ∧ lookupOpt "force" (finalizeOpts { project := some "proj" }) =
        some (Value.bool (({ project := some "proj" } : Namespace)).force)
    ∧ lookupOpt "log_level" (finalizeOpts { project := some "proj" }) =
        some (Value.num (levelNumber (({ project := some "proj" } : Namespace)).log_level)) :=
  parse_args_prunes_absent_values env0 fs0 4 ["proj"]
    { project := some "proj" } (by decide)

/-- C9: `list_actions` performs no filesystem or process side effect:
its trace consists only of print events — the header followed by one
line per resolved action identifier, in final execution order. -/
theorem list_actions_only_prints_plan
    (discover : List String → List Action) (opts : List (String × Value)) :
    list_actions discover opts =
      Effect.print "Planned Actions:\n" ::
        (discover (optsExtensions opts)).map
          (fun a => Effect.print (SPACING ++ get_id a))
    ∧ ∀ e ∈ list_actions discover opts, ∃ s, e = Effect.print s := by
  refine ⟨rfl, ?_⟩
  intro e he
  unfold list_actions at he
  rcases List.mem_cons.mp he with rfl | he
  · exact ⟨_, rfl⟩
  · rcases List.mem_map.mp he with ⟨a, _, rfl⟩
    exact ⟨_, rfl⟩

/-! Lemmas for C1: the last occurrence of a single-valued option wins. -/

theorem valOptOf_of_mem (o : ValOpt) (s : String) (hs : s ∈ valOptStrings o) :
    valOptOf s = some o := by
  cases o <;> simp [valOptStrings] at hs <;> rcases hs with rfl | rfl <;> decide

theorem isOptionToken_of_mem (o : ValOpt) (s : String) (hs : s ∈ valOptStrings o) :
    isOptionToken s = true := by
  cases o <;> simp [valOptStrings] at hs <;> rcases hs with rfl | rfl <;> decide

theorem hasAtMark_of_mem (o : ValOpt) (s : String) (hs : s ∈ valOptStrings o) :
    hasAtMark s = false := by
  cases o <;> simp [valOptStrings] at hs <;> rcases hs with rfl | rfl <;> decide

theorem step_valOptStr (o : ValOpt) (s : String) (hs : s ∈ valOptStrings o)
    (st : PState) :
    step s st =
      match st.pending with
      | some _ => .error .expectedOneArg
      | none => .ok { st with pending := some o } := by
  have h1 : isOptionToken s = true := isOptionToken_of_mem o s hs
  have h2 : valOptOf s = some o := valOptOf_of_mem o s hs
  unfold step
  cases st.pending with
  | some o' => simp [h1]
  | none => simp [h2]

theorem step_pending_val (o : ValOpt) (v : String) (st st' : PState)
    (hp : st.pending = some o) (h : step v st = .ok st') :
    valOptHolds o v st'.ns ∧ st'.pending = none := by
  unfold step at h
  rw [hp] at h
  dsimp only at h
  by_cases hv : isOptionToken v = true
  · rw [if_pos hv] at h
    simp at h
  · rw [if_neg hv] at h
    cases o with
    | pkg =>
      simp [valOptSet] at h
      subst h
      exact ⟨rfl, rfl⟩
    | desc =>
      simp [valOptSet] at h
      subst h
      exact ⟨rfl, rfl⟩
    | url =>
      simp [valOptSet] at h
      subst h
      exact ⟨rfl, rfl⟩
    | lic =>
      by_cases hl : v ∈ licenses
      · simp [valOptSet, hl] at h
        subst h
        exact ⟨rfl, rfl⟩
      · simp [valOptSet, hl] at h

theorem runTokens_nil_ok (st : PState) (ns : Namespace)
    (h : runTokens [] st = .ok ns) : ns = st.ns := by
  unfold runTokens at h
  cases hp : st.pending with
  | some o => rw [hp] at h; simp at h
  | none =>
    rw [hp] at h
    by_cases hq : st.ns.project.isSome = true
    · simp [hq] at h
      exact h.symm
    · simp [hq] at h

theorem runTokens_pair_val (o : ValOpt) (s v : String) (hs : s ∈ valOptStrings o)
    (st : PState) (ns : Namespace) (h : runTokens [s, v] st = .ok ns) :
    valOptHolds o v ns := by
  have hcons : runTokens [s, v] st =
      match step s st with
      | .error e => .error e
      | .ok st' => runTokens [v] st' := rfl
  rw [hcons, step_valOptStr o s hs st] at h
  cases hp : st.pending with
  | some o' => rw [hp] at h; simp at h
  | none =>
    rw [hp] at h
    dsimp only at h
    have hcons2 : runTokens [v] { st with pending := some o } =
        match step v { st with pending := some o } with
        | .error e => .error e
        | .ok st' => runTokens [] st' := rfl
    rw [hcons2] at h
    cases hsv : step v { st with pending := some o } with
    | error e => rw [hsv] at h; simp at h
    | ok st' =>
      rw [hsv] at h
      dsimp only at h
      have hval := step_pending_val o v { st with pending := some o } st' rfl hsv
      rw [runTokens_nil_ok st' ns h]
      exact hval.1

theorem runTokens_last_val (o : ValOpt) (s v : String) (hs : s ∈ valOptStrings o) :
    ∀ ts st ns, runTokens (ts ++ [s, v]) st = .ok ns → valOptHolds o v ns := by
  intro ts
  induction ts with
  | nil =>
    intro st ns h
    exact runTokens_pair_val o s v hs st ns h
  | cons t ts ih =>
    intro st ns h
    have hcons : runTokens ((t :: ts) ++ [s, v]) st =
        match step t st with
        | .error e => .error e
        | .ok st' => runTokens (ts ++ [s, v]) st' := rfl
    rw [hcons] at h
    cases hst : step t st with
    | error e => rw [hst] at h; simp at h
    | ok st' => rw [hst] at h; exact ih st' ns h

theorem expandStep_suffix (fs : FS)
    (deeper : List String → Except ParseError (List String)) (s v : String)
    (hsv : hasAtMark s = false) (hvv : hasAtMark v = false) :
    ∀ xs toks, expandStep fs deeper (xs ++ [s, v]) = .ok toks →
      ∃ ts, toks = ts ++ [s, v] := by
  intro xs
  induction xs with
  | nil =>
    intro toks h
    simp [expandStep, hsv, hvv] at h
    exact ⟨[], h.symm⟩
  | cons a xs ih =>
    intro toks h
    rw [List.cons_append] at h
    by_cases ha : hasAtMark a = true
    · unfold expandStep at h
      rw [if_pos ha] at h
      cases hrd : fs.readLines (strTail a) with
      | none => rw [hrd] at h; simp at h
      | some lines =>
        rw [hrd] at h
        dsimp only at h
        cases hal : argLines lines with
        | error e => rw [hal] at h; simp at h
        | ok fileToks =>
          rw [hal] at h
          dsimp only at h
          cases hdp : deeper fileToks with
          | error e => rw [hdp] at h; simp at h
          | ok fileArgs =>
            rw [hdp] at h
            dsimp only at h
            cases hrec : expandStep fs deeper (xs ++ [s, v]) with
            | error e => rw [hrec] at h; simp at h
            | ok restArgs =>
              rw [hrec] at h
              simp at h
              obtain ⟨ts, hts⟩ := ih restArgs hrec
              refine ⟨fileArgs ++ ts, ?_⟩
              rw [← h, hts, List.append_assoc]
    · unfold expandStep at h
      rw [if_neg ha] at h
      cases hrec : expandStep fs deeper (xs ++ [s, v]) with
      | error e => rw [hrec] at h; simp at h
      | ok restArgs =>
        rw [hrec] at h
        simp at h
        obtain ⟨ts, hts⟩ := ih restArgs hrec
        refine ⟨a :: ts, ?_⟩
        rw [← h, hts]
        rfl

theorem expandArgs_suffix (fs : FS) (s v : String)
    (hsv : hasAtMark s = false) (hvv : hasAtMark v = false) :
    ∀ fuel xs toks, expandArgs fs fuel (xs ++ [s, v]) = .ok toks →
      ∃ ts, toks = ts ++ [s, v] := by
  intro fuel
  cases fuel with
  | zero =>
    intro xs toks h
    unfold expandArgs at h
    by_cases ha : (xs ++ [s, v]).any hasAtMark = true
    · rw [if_pos ha] at h; simp at h
    · rw [if_neg ha] at h
      simp at h
      exact ⟨xs, h.symm⟩
  | succ f =>
    intro xs toks h
    exact expandStep_suffix fs (expandArgs fs f) s v hsv hvv xs toks h

/-- C1: with a profile selected (variable not the literal `none`) and
its arguments file present, `parse_args` parses the file reference
`@file` prepended in front of the untouched explicit argument list; and
for a single-valued option supplied explicitly as the final tokens, the
explicit value is the one bound in the returned record, whatever the
profile file contains. -/
theorem parse_args_profile_prepend_explicit_wins (env : Env) (fs : FS)
    (fuel : Nat) (args : List String)
    (hprof : env "PYSCAFFOLD_PROFILE" ≠ some "none")
    (hfile : fs.pathExists (get_args_file env fs (env "PYSCAFFOLD_PROFILE")) = true) :
    parse_args env fs fuel args =
      parseExplicit fs fuel
        (("@" ++ get_args_file env fs (env "PYSCAFFOLD_PROFILE")) :: args)
    ∧ ∀ (o : ValOpt) (s v : String) (front : List String)
        (d : List (String × Value)),
        s ∈ valOptStrings o →
        hasAtMark v = false →
        args = front ++ [s, v] →
        parse_args env fs fuel args = .ok d →
        lookupOpt (valOptDest o) d = some (Value.str v) := by
  have heff : effectiveArgs env fs args =
      ("@" ++ get_args_file env fs (env "PYSCAFFOLD_PROFILE")) :: args := by
    unfold effectiveArgs
    simp [hprof, hfile]
  constructor
  · unfold parse_args
    rw [heff]
  · intro o s v front d hs hv hargs hok
    unfold parse_args at hok
    rw [heff, hargs] at hok
    unfold parseExplicit parseNamespace at hok
    rw [show ("@" ++ get_args_file env fs (env "PYSCAFFOLD_PROFILE")) ::
          (front ++ [s, v]) =
        (("@" ++ get_args_file env fs (env "PYSCAFFOLD_PROFILE")) :: front) ++
          [s, v] from rfl] at hok
    cases he : expandArgs fs fuel
        ((("@" ++ get_args_file env fs (env "PYSCAFFOLD_PROFILE")) :: front) ++
          [s, v]) with
    | error e => rw [he] at hok; simp at hok
    | ok toks =>
      rw [he] at hok
      dsimp only at hok
      cases hr : runTokens toks initState with
      | error e => rw [hr] at hok; simp at hok
      | ok ns =>
        rw [hr] at hok
        simp at hok
        obtain ⟨ts, hts⟩ :=
          expandArgs_suffix fs s v (hasAtMark_of_mem o s hs) hv fuel _ toks he
        rw [hts] at hr
        have hval := runTokens_last_val o s v hs ts initState ns hr
        rw [← hok]
        cases o with
        | pkg =>
          rw [show valOptDest ValOpt.pkg = "package" from rfl,
            lookupOpt_finalize_package ns]
          rw [show ns.package = some v from hval]
          rfl
        | desc =>
          rw [show valOptDest ValOpt.desc = "description" from rfl,
            lookupOpt_finalize_description ns]
          rw [show ns.description = some v from hval]
          rfl
        | url =>
          rw [show valOptDest ValOpt.url = "url" from rfl,
            lookupOpt_finalize_url ns]
          rw [show ns.url = some v from hval]
          rfl
        | lic =>
          rw [show valOptDest ValOpt.lic = "license" from rfl,
            lookupOpt_finalize_license ns]
          rw [show ns.license = v from hval]

theorem parse_args_profile_prepend_explicit_wins_witness :
    parse_args env1 fs1 4 ["proj", "--license", "mit"] =
      parseExplicit fs1 4
        (("@" ++ get_args_file env1 fs1 (env1 "PYSCAFFOLD_PROFILE")) ::
          ["proj", "--license", "mit"])
    ∧ lookupOpt (valOptDest ValOpt.lic)
        [("project", Value.str "proj"), ("license", Value.str "mit"),
         ("force", Value.bool false), ("update", Value.bool false),
         ("pretend", Value.bool false), ("command", Value.cmd Cmd.runScaffold),
         ("log_level", Value.num 20), ("extensions", Value.strList [])] =
        some (Value.str "mit") :=
  ⟨(parse_args_profile_prepend_explicit_wins env1 fs1 4
      ["proj", "--license", "mit"] (by decide) (by decide)).1,
   (parse_args_profile_prepend_explicit_wins env1 fs1 4
      ["proj", "--license", "mit"] (by decide) (by decide)).2
      ValOpt.lic "--license" "mit" ["proj"] _ (by decide) (by decide) (by decide)
      (by decide)⟩

/-! Lemmas for C8: mutual exclusion of the pretend and list-actions
flags. -/

theorem step_seen_preserve (t : String) (st st' : PState)
    (ht1 : t ≠ "--pretend") (ht2 : t ≠ "--dry-run") (ht3 : t ≠ "--list-actions")
    (h : step t st = .ok st') : st'.seen = st.seen := by
  unfold step at h
  cases hp : st.pending with
  | some o =>
    rw [hp] at h
    dsimp only at h
    by_cases hv : isOptionToken t = true
    · rw [if_pos hv] at h; simp at h
    · rw [if_neg hv] at h
      cases o with
      | pkg => simp [valOptSet] at h; subst h; rfl
      | desc => simp [valOptSet] at h; subst h; rfl
      | url => simp [valOptSet] at h; subst h; rfl
      | lic =>
        by_cases hl : t ∈ licenses
        · simp [valOptSet, hl] at h; subst h; rfl
        · simp [valOptSet, hl] at h
  | none =>
    rw [hp] at h
    dsimp only at h
    cases hvo : valOptOf t with
    | some o => rw [hvo] at h; dsimp only at h; simp at h; subst h; rfl
    | none =>
      rw [hvo] at h
      dsimp only at h
      by_cases h1 : t = "-f" ∨ t = "--force"
      · rw [if_pos h1] at h; simp at h; subst h; rfl
      · rw [if_neg h1] at h
        by_cases h2 : t = "-U" ∨ t = "--update"
        · rw [if_pos h2] at h; simp at h; subst h; rfl
        · rw [if_neg h2] at h
          by_cases h3 : t = "--pretend" ∨ t = "--dry-run"
          · rcases h3 with rfl | rfl
            · exact absurd rfl ht1
            · exact absurd rfl ht2
          · rw [if_neg h3] at h
            by_cases h4 : t = "--list-actions"
            · exact absurd h4 ht3
            · rw [if_neg h4] at h
              by_cases h5 : t = "-v" ∨ t = "--version"
              · rw [if_pos h5] at h; simp at h
              · rw [if_neg h5] at h
                by_cases h6 : t = "-q" ∨ t = "--quiet"
                · rw [if_pos h6] at h; simp at h; subst h; rfl
                · rw [if_neg h6] at h
                  by_cases h7 : isOptionToken t = true
                  · rw [if_pos h7] at h; simp at h
                  · rw [if_neg h7] at h
                    cases hpr : st.ns.project with
                    | none =>
                      rw [hpr] at h; dsimp only at h; simp at h; subst h; rfl
                    | some p => rw [hpr] at h; simp at h

theorem step_pretend_seen (t : String) (st st' : PState)
    (ht : t = "--pretend" ∨ t = "--dry-run") (h : step t st = .ok st') :
    st'.seen = some GroupFlag.pretendFlag ∧ st'.ns.pretend = true := by
  rcases ht with rfl | rfl <;>
  · unfold step at h
    cases hp : st.pending with
    | some o =>
      rw [hp] at h
      dsimp only at h
      rw [if_pos (by decide)] at h
      simp at h
    | none =>
      rw [hp] at h
      dsimp only at h
      simp [valOptOf] at h
      by_cases hseen : st.seen = some GroupFlag.listActionsFlag
      · rw [if_pos hseen] at h; simp at h
      · rw [if_neg hseen] at h
        simp at h
        subst h
        exact ⟨rfl, rfl⟩

theorem step_la_seen (st st' : PState)
    (h : step "--list-actions" st = .ok st') :
    st'.seen = some GroupFlag.listActionsFlag ∧
      st'.ns.command = Cmd.listActions := by
  unfold step at h
  cases hp : st.pending with
  | some o =>
    rw [hp] at h
    dsimp only at h
    rw [if_pos (by decide)] at h
    simp at h
  | none =>
    rw [hp] at h
    dsimp only at h
    simp [valOptOf] at h
    by_cases hseen : st.seen = some GroupFlag.pretendFlag
    · rw [if_pos hseen] at h; simp at h
    · rw [if_neg hseen] at h
      simp at h
      subst h
      exact ⟨rfl, rfl⟩

theorem step_la_pretend_err (st st' : PState)
    (hseen : st.seen = some GroupFlag.pretendFlag) :
    step "--list-actions" st ≠ .ok st' := by
  intro h
  unfold step at h
  cases hp : st.pending with
  | some o =>
    rw [hp] at h
    dsimp only at h
    rw [if_pos (by decide)] at h
    simp at h
  | none =>
    rw [hp] at h
    dsimp only at h
    simp [valOptOf] at h
    rw [if_pos hseen] at h
    simp at h

theorem step_pretend_la_err (t : String) (st st' : PState)
    (ht : t = "--pretend" ∨ t = "--dry-run")
    (hseen : st.seen = some GroupFlag.listActionsFlag) :
    step t st ≠ .ok st' := by
  intro h
  rcases ht with rfl | rfl <;>
  · unfold step at h
    cases hp : st.pending with
    | some o =>
      rw [hp] at h
      dsimp only at h
      rw [if_pos (by decide)] at h
      simp at h
    | none =>
      rw [hp] at h
      dsimp only at h
      simp [valOptOf] at h
      rw [if_pos hseen] at h
      simp at h

theorem runTokens_pretend_then_la (ts : List String) :
    ∀ st, st.seen = some GroupFlag.pretendFlag → "--list-actions" ∈ ts →
      ∀ ns, runTokens ts st ≠ .ok ns := by
  induction ts with
  | nil =>
    intro st _ hmem
    simp at hmem
  | cons t ts ih =>
    intro st hseen hmem ns h
    have hcons : runTokens (t :: ts) st =
        match step t st with
        | .error e => .error e
        | .ok st' => runTokens ts st' := rfl
    rw [hcons] at h
    cases hst : step t st with
    | error e => rw [hst] at h; simp at h
    | ok st' =>
      rw [hst] at h
      by_cases hts : t = "--list-actions"
      · subst hts
        exact step_la_pretend_err st st' hseen hst
      · have hseen' : st'.seen = some GroupFlag.pretendFlag := by
          by_cases hpt : t = "--pretend" ∨ t = "--dry-run"
          · exact (step_pretend_seen t st st' hpt hst).1
          · push_neg at hpt
            rw [step_seen_preserve t st st' hpt.1 hpt.2 hts hst]
            exact hseen
        have hmem' : "--list-actions" ∈ ts := by
          rcases List.mem_cons.mp hmem with h' | h'
          · exact absurd h'.symm hts
          · exact h'
        exact ih st' hseen' hmem' ns h

theorem runTokens_la_then_pretend (ts : List String) :
    ∀ st, st.seen = some GroupFlag.listActionsFlag →
      ("--pretend" ∈ ts ∨ "--dry-run" ∈ ts) →
      ∀ ns, runTokens ts st ≠ .ok ns := by
  induction ts with
  | nil =>
    intro st _ hmem
    rcases hmem with hmem | hmem <;> simp at hmem
  | cons t ts ih =>
    intro st hseen hmem ns h
    have hcons : runTokens (t :: ts) st =
        match step t st with
        | .error e => .error e
        | .ok st' => runTokens ts st' := rfl
    rw [hcons] at h
    cases hst : step t st with
    | error e => rw [hst] at h; simp at h
    | ok st' =>
      rw [hst] at h
      by_cases hpt : t = "--pretend" ∨ t = "--dry-run"
      · exact step_pretend_la_err t st st' hpt hseen hst
      · push_neg at hpt
        have hseen' : st'.seen = some GroupFlag.listActionsFlag := by
          by_cases hts : t = "--list-actions"
          · subst hts
            exact (step_la_seen st st' hst).1
          · rw [step_seen_preserve t st st' hpt.1 hpt.2 hts hst]
            exact hseen
        have hmem' : "--pretend" ∈ ts ∨ "--dry-run" ∈ ts := by
          rcases hmem with hm | hm
          · rcases List.mem_cons.mp hm with h' | h'
            · exact absurd h'.symm hpt.1
            · exact Or.inl h'
          · rcases List.mem_cons.mp hm with h' | h'
            · exact absurd h'.symm hpt.2
            · exact Or.inr h'
        exact ih st' hseen' hmem' ns h

theorem runTokens_both_flags_err (ts : List String) :
    ∀ st, ("--pretend" ∈ ts ∨ "--dry-run" ∈ ts) → "--list-actions" ∈ ts →
      ∀ ns, runTokens ts st ≠ .ok ns := by
  induction ts with
  | nil =>
    intro st hA _
    rcases hA with hA | hA <;> simp at hA
  | cons t ts ih =>
    intro st hA hB ns h
    have hcons : runTokens (t :: ts) st =
        match step t st with
        | .error e => .error e
        | .ok st' => runTokens ts st' := rfl
    rw [hcons] at h
    cases hst : step t st with
    | error e => rw [hst] at h; simp at h
    | ok st' =>
      rw [hst] at h
      by_cases hts : t = "--list-actions"
      · subst hts
        have hA' : "--pretend" ∈ ts ∨ "--dry-run" ∈ ts := by
          rcases hA with hm | hm
          · rcases List.mem_cons.mp hm with h' | h'
            · exact absurd h'.symm (by decide)
            · exact Or.inl h'
          · rcases List.mem_cons.mp hm with h' | h'
            · exact absurd h'.symm (by decide)
            · exact Or.inr h'
        exact runTokens_la_then_pretend ts st' (step_la_seen st st' hst).1 hA' ns h
      · by_cases hpt : t = "--pretend" ∨ t = "--dry-run"
        · have hB' : "--list-actions" ∈ ts := by
            rcases List.mem_cons.mp hB with h' | h'
            · exact absurd h'.symm hts
            · exact h'
          exact runTokens_pretend_then_la ts st'
            (step_pretend_seen t st st' hpt hst).1 hB' ns h
        · push_neg at hpt
          have hA' : "--pretend" ∈ ts ∨ "--dry-run" ∈ ts := by
            rcases hA with hm | hm
            · rcases List.mem_cons.mp hm with h' | h'
              · exact absurd h'.symm hpt.1
              · exact Or.inl h'
            · rcases List.mem_cons.mp hm with h' | h'
              · exact absurd h'.symm hpt.2
              · exact Or.inr h'
          have hB' : "--list-actions" ∈ ts := by
            rcases List.mem_cons.mp hB with h' | h'
            · exact absurd h'.symm hts
            · exact h'
          exact ih st' hA' hB' ns h

theorem expandStep_mem (fs : FS)
    (deeper : List String → Except ParseError (List String)) (t : String)
    (ht : hasAtMark t = false) :
    ∀ args toks, expandStep fs deeper args = .ok toks → t ∈ args → t ∈ toks := by
  intro args
  induction args with
  | nil =>
    intro toks _ hmem
    simp at hmem
  | cons a rest ih =>
    intro toks h hmem
    by_cases ha : hasAtMark a = true
    · have hta : t ≠ a := by
        intro hc
        rw [hc, ha] at ht
        cases ht
      have hmem' : t ∈ rest := by
        rcases List.mem_cons.mp hmem with h' | h'
        · exact absurd h' hta
        · exact h'
      unfold expandStep at h
      rw [if_pos ha] at h
      cases hrd : fs.readLines (strTail a) with
      | none => rw [hrd] at h; simp at h
      | some lines =>
        rw [hrd] at h
        dsimp only at h
        cases hal : argLines lines with
        | error e => rw [hal] at h; simp at h
        | ok fileToks =>
          rw [hal] at h
          dsimp only at h
          cases hdp : deeper fileToks with
          | error e => rw [hdp] at h; simp at h
          | ok fileArgs =>
            rw [hdp] at h
            dsimp only at h
            cases hrec : expandStep fs deeper rest with
            | error e => rw [hrec] at h; simp at h
            | ok restArgs =>
              rw [hrec] at h
              simp at h
              rw [← h]
              exact List.mem_append_right fileArgs (ih restArgs hrec hmem')
    · unfold expandStep at h
      rw [if_neg ha] at h
      cases hrec : expandStep fs deeper rest with
      | error e => rw [hrec] at h; simp at h
      | ok restArgs =>
        rw [hrec] at h
        simp at h
        rcases List.mem_cons.mp hmem with h' | h'
        · rw [← h, h']
          exact List.mem_cons_self a restArgs
        · rw [← h]
          exact List.mem_cons_of_mem a (ih restArgs hrec h')

theorem expandArgs_mem (fs : FS) (t : String) (ht : hasAtMark t = false) :
    ∀ fuel args toks, expandArgs fs fuel args = .ok toks → t ∈ args → t ∈ toks := by
  intro fuel
  cases fuel with
  | zero =>
    intro args toks h hmem
    unfold expandArgs at h
    by_cases ha : args.any hasAtMark = true
    · rw [if_pos ha] at h; simp at h
    · rw [if_neg ha] at h
      simp at h
      rw [← h]
      exact hmem
  | succ f =>
    intro args toks h hmem
    exact expandStep_mem fs (expandArgs fs f) t ht args toks h hmem

theorem effectiveArgs_mem (env : Env) (fs : FS) (args : List String)
    (t : String) (hmem : t ∈ args) : t ∈ effectiveArgs env fs args := by
  unfold effectiveArgs
  split_ifs
  · exact List.mem_cons_of_mem _ hmem
  · exact hmem
  · exact hmem

theorem step_groupInv (t : String) (st st' : PState) (hinv : groupInv st)
    (h : step t st = .ok st') : groupInv st' := by
  unfold step at h
  cases hp : st.pending with
  | some o =>
    rw [hp] at h
    dsimp only at h
    by_cases hv : isOptionToken t = true
    · rw [if_pos hv] at h; simp at h
    · rw [if_neg hv] at h
      cases o with
      | pkg => simp [valOptSet] at h; subst h; exact hinv
      | desc => simp [valOptSet] at h; subst h; exact hinv
      | url => simp [valOptSet] at h; subst h; exact hinv
      | lic =>
        by_cases hl : t ∈ licenses
        · simp [valOptSet, hl] at h; subst h; exact hinv
        · simp [valOptSet, hl] at h
  | none =>
    rw [hp] at h
    dsimp only at h
    cases hvo : valOptOf t with
    | some o => rw [hvo] at h; dsimp only at h; simp at h; subst h; exact hinv
    | none =>
      rw [hvo] at h
      dsimp only at h
      by_cases h1 : t = "-f" ∨ t = "--force"
      · rw [if_pos h1] at h; simp at h; subst h; exact hinv
      · rw [if_neg h1] at h
        by_cases h2 : t = "-U" ∨ t = "--update"
        · rw [if_pos h2] at h; simp at h; subst h; exact hinv
        · rw [if_neg h2] at h
          by_cases h3 : t = "--pretend" ∨ t = "--dry-run"
          · rw [if_pos h3] at h
            by_cases hseen : st.seen = some GroupFlag.listActionsFlag
            · rw [if_pos hseen] at h; simp at h
            · rw [if_neg hseen] at h
              simp at h
              subst h
              constructor
              · intro _
                rfl
              · intro hcmd
                exact absurd (hinv.2 hcmd) hseen
          · rw [if_neg h3] at h
            by_cases h4 : t = "--list-actions"
            · rw [if_pos h4] at h
              by_cases hseen : st.seen = some GroupFlag.pretendFlag
              · rw [if_pos hseen] at h; simp at h
              · rw [if_neg hseen] at h
                simp at h
                subst h
                constructor
                · intro hpre
                  exact absurd (hinv.1 hpre) hseen
                · intro _
                  rfl
            · rw [if_neg h4] at h
              by_cases h5 : t = "-v" ∨ t = "--version"
              · rw [if_pos h5] at h; simp at h
              · rw [if_neg h5] at h
                by_cases h6 : t = "-q" ∨ t = "--quiet"
                · rw [if_pos h6] at h; simp at h; subst h; exact hinv
                · rw [if_neg h6] at h
                  by_cases h7 : isOptionToken t = true
                  · rw [if_pos h7] at h; simp at h
                  · rw [if_neg h7] at h
                    cases hpr : st.ns.project with
                    | none =>
                      rw [hpr] at h
                      dsimp only at h
                      simp at h
                      subst h
                      exact hinv
                    | some p => rw [hpr] at h; simp at h

theorem groupInv_init : groupInv initState :=
  ⟨fun h => absurd h (by decide), fun h => absurd h (by decide)⟩

theorem runTokens_no_both (ts : List String) :
    ∀ st ns, groupInv st → runTokens ts st = .ok ns →
      ¬(ns.pretend = true ∧ ns.command = Cmd.listActions) := by
  induction ts with
  | nil =>
    intro st ns hinv h
    rw [runTokens_nil_ok st ns h]
    rintro ⟨hpre, hcmd⟩
    have h1 := hinv.1 hpre
    have h2 := hinv.2 hcmd
    rw [h1] at h2
    simp at h2
  | cons t ts ih =>
    intro st ns hinv h
    have hcons : runTokens (t :: ts) st =
        match step t st with
        | .error e => .error e
        | .ok st' => runTokens ts st' := rfl
    rw [hcons] at h
    cases hst : step t st with
    | error e => rw [hst] at h; simp at h
    | ok st' =>
      rw [hst] at h
      exact ih st' ns (step_groupInv t st st' hinv hst) h

/-- C8: the pretend and list-actions flags are mutually exclusive: any
argument list containing both fails to parse (so no action ever
executes), and in every options record `parse_args` returns the two
flags are never simultaneously active. -/
theorem pretend_list_actions_mutually_exclusive (env : Env) (fs : FS)
    (fuel : Nat) (args : List String)
    (hA : "--pretend" ∈ args ∨ "--dry-run" ∈ args)
    (hB : "--list-actions" ∈ args) :
    isErr (parse_args env fs fuel args) = true
    ∧ ∀ (env' : Env) (fs' : FS) (fuel' : Nat) (args' : List String)
        (d : List (String × Value)),
        parse_args env' fs' fuel' args' = .ok d →
        ¬(lookupOpt "pretend" d = some (Value.bool true) ∧
          lookupOpt "command" d = some (Value.cmd Cmd.listActions)) := by
  constructor
  · unfold parse_args parseExplicit parseNamespace
    cases he : expandArgs fs fuel (effectiveArgs env fs args) with
    | error e => simp [isErr]
    | ok toks =>
      have hAm : "--pretend" ∈ toks ∨ "--dry-run" ∈ toks := by
        rcases hA with hm | hm
        · exact Or.inl (expandArgs_mem fs "--pretend" (by decide) fuel _ toks he
            (effectiveArgs_mem env fs args _ hm))
        · exact Or.inr (expandArgs_mem fs "--dry-run" (by decide) fuel _ toks he
            (effectiveArgs_mem env fs args _ hm))
      have hBm : "--list-actions" ∈ toks :=
        expandArgs_mem fs "--list-actions" (by decide) fuel _ toks he
          (effectiveArgs_mem env fs args _ hB)
      cases hr : runTokens toks initState with
      | error e => dsimp only; rw [hr]; simp [isErr]
      | ok ns =>
        exact absurd hr (runTokens_both_flags_err toks initState hAm hBm ns)
  · intro env' fs' fuel' args' d hok
    unfold parse_args parseExplicit parseNamespace at hok
    cases he : expandArgs fs' fuel' (effectiveArgs env' fs' args') with
    | error e => rw [he] at hok; simp at hok
    | ok toks =>
      rw [he] at hok
      dsimp only at hok
      cases hr : runTokens toks initState with
      | error e => rw [hr] at hok; simp at hok
      | ok ns =>
        rw [hr] at hok
        simp at hok
        rintro ⟨hpre, hcmd⟩
        rw [← hok, lookupOpt_finalize_pretend ns] at hpre
        rw [← hok, lookupOpt_finalize_command ns] at hcmd
        simp at hpre hcmd
        exact runTokens_no_both toks initState ns groupInv_init hr ⟨hpre, hcmd⟩

theorem pretend_list_actions_mutually_exclusive_witness :
    isErr (parse_args env0 fs0 4 ["p", "--pretend", "--list-actions"]) = true
    ∧ ¬(lookupOpt "pretend"
          [("project", Value.str "p"), ("license", Value.str "none"),
           ("force", Value.bool false), ("update", Value.bool false),
           ("pretend", Value.bool true), ("command", Value.cmd Cmd.runScaffold),
           ("log_level", Value.num 20), ("extensions", Value.strList [])] =
          some (Value.bool true) ∧
        lookupOpt "command"
          [("project", Value.str "p"), ("license", Value.str "none"),
           ("force", Value.bool false), ("update", Value.bool false),
           ("pretend", Value.bool true), ("command", Value.cmd Cmd.runScaffold),
           ("log_level", Value.num 20), ("extensions", Value.strList [])] =
          some (Value.cmd Cmd.listActions)) :=
  ⟨(pretend_list_actions_mutually_exclusive env0 fs0 4
      ["p", "--pretend", "--list-actions"] (Or.inl (by decide)) (by decide)).1,
   (pretend_list_actions_mutually_exclusive env0 fs0 4
      ["p", "--pretend", "--list-actions"] (Or.inl (by decide)) (by decide)).2
      env0 fs0 4 ["p", "--pretend"] _ (by decide)⟩

theorem list_actions_only_prints_plan_witness :
    list_actions discover0 [] =
      Effect.print "Planned Actions:\n" ::
        (discover0 (optsExtensions [])).map
          (fun a => Effect.print (SPACING ++ get_id a))
    ∧ ∀ e ∈ list_actions discover0 [], ∃ s, e = Effect.print s :=
  list_actions_only_prints_plan discover0 []

end PyScaffold
